import Mathlib

/-!
Shallow embedding of the `file_manager` repository (single source file
`src/main.rs`): an egui desktop file browser.  Pure parts (size formatting,
timestamp formatting, sorting, parent computation) are translated directly;
the filesystem and the per-frame UI event stream are modelled as explicit
inputs; side effects (stdout, stderr, process spawns, directory reads) are
collected in an effect list; a Rust panic (a failing `unwrap`) is modelled
as `Option.none`.
-/

namespace FileManagerModel

/-- A local calendar date-time, the model of `chrono::DateTime<chrono::Local>`
restricted to the fields the program reads (`date_naive`, `%H`, `%M`,
`%d`, `%m`, `%Y`).  Years are modelled as naturals (the program only ever
formats timestamps of real files). -/
structure LocalDateTime where
  year : Nat
  month : Nat
  day : Nat
  hour : Nat
  minute : Nat
deriving DecidableEq

/-- The `chrono` leap-year rule (proleptic Gregorian). -/
def isLeapYear (y : Nat) : Bool :=
  (y % 4 == 0 && y % 100 != 0) || y % 400 == 0

/-- Number of days in month `m` of year `y` (Gregorian). -/
def daysInMonth (y m : Nat) : Nat :=
  if m = 2 then (if isLeapYear y then 29 else 28)
  else if m = 4 ∨ m = 6 ∨ m = 9 ∨ m = 11 then 30
  else 31

/-- The date as a `(year, month, day)` triple: model of `NaiveDate`,
obtained from `datetime.date_naive()`. -/
def dateNaive (t : LocalDateTime) : Nat × Nat × Nat :=
  (t.year, t.month, t.day)

/-- Model of `NaiveDate::pred_opt`: the previous calendar day, `none` at the
minimum representable date (here day 1, month 1, year 0). -/
def pred_opt : Nat × Nat × Nat → Option (Nat × Nat × Nat)
  | (y, m, d) =>
    if 2 ≤ d then some (y, m, d - 1)
    else if 2 ≤ m then some (y, m - 1, daysInMonth y (m - 1))
    else if 1 ≤ y then some (y - 1, 12, 31)
    else none

/-- Zero-pad a numeral to two digits, as the `chrono` format specifiers
`%H`, `%M`, `%d`, `%m` do. -/
def pad2 (n : Nat) : String :=
  if n < 10 then "0" ++ Nat.repr n else Nat.repr n

/-- Zero-pad a numeral to four digits, as `%Y` does. -/
def pad4 (n : Nat) : String :=
  if n < 10 then "000" ++ Nat.repr n
  else if n < 100 then "00" ++ Nat.repr n
  else if n < 1000 then "0" ++ Nat.repr n
  else Nat.repr n

/-- Model of `datetime.format("%H:%M")`. -/
def fmtHM (t : LocalDateTime) : String :=
  pad2 t.hour ++ ":" ++ pad2 t.minute

/-- Model of `datetime.format("%d/%m/%Y")`. -/
def fmtDMY (t : LocalDateTime) : String :=
  pad2 t.day ++ "/" ++ pad2 t.month ++ "/" ++ pad4 t.year

/-- The timestamp rendering inside `read_dir` (main.rs lines 48-61): given
`now = chrono::Local::now()` and the entry's modification time `t`, produce
"Today at HH:MM", "Yesterday at HH:MM" or "DD/MM/YYYY at HH:MM". -/
def formatModified (now t : LocalDateTime) : String :=
  let today := dateNaive now
  let yesterday := pred_opt today
  if dateNaive t = today then "Today at " ++ fmtHM t
  else if some (dateNaive t) = yesterday then "Yesterday at " ++ fmtHM t
  else fmtDMY t ++ " at " ++ fmtHM t

/-- An OS file name (`OsString`): either valid UTF-8 or not.  The payload
of `invalid` abstracts the raw bytes. -/
inductive OsName where
  | utf8 : String → OsName
  | invalid : Nat → OsName
deriving DecidableEq

/-- Model of `OsString::into_string`: succeeds exactly on valid UTF-8. -/
def intoString : OsName → Option String
  | .utf8 s => some s
  | .invalid _ => none

/-- The slice of `fs::Metadata` the program reads: `len()` and the result
of `modified()` (which can itself fail, hence `Option`), already converted
to a local date-time. -/
structure Metadata where
  len : Nat
  modified : Option LocalDateTime
deriving DecidableEq

/-- One raw directory entry as the OS hands it to `read_dir`
(main.rs lines 31-47): its name, the result of `entry.file_type()`
(`some isDir`, or `none` when the query fails), the result of the nested
`fs::read_dir(entry.path()).map(|entries| entries.count())` used for
directories (`none` when that enumeration fails), and the result of
`entry.metadata()`. -/
structure RawEntry where
  name : OsName
  fileType : Option Bool
  childCount : Option Nat
  metadata : Option Metadata
deriving DecidableEq

/-- A directory listing as the iterator of `fs::read_dir` yields it: each
item is `Ok` with an entry or `Err` (skipped by `if let Ok(entry)`). -/
abbrev Listing := List (Except Unit RawEntry)

instance : DecidableEq (Except Unit RawEntry) := fun x y =>
  match x, y with
  | .error a, .error b => .isTrue (by cases a; cases b; rfl)
  | .ok a, .ok b =>
    if h : a = b then .isTrue (by rw [h]) else .isFalse (by simp [h])
  | .error _, .ok _ => .isFalse (by simp)
  | .ok _, .error _ => .isFalse (by simp)

/-- Paths are absolute Unix paths, modelled as the list of components after
the root; `[]` is the filesystem root `/`. -/
abbrev Path := List String

/-- The filesystem, as `fs::read_dir` sees it: a directory listing per
path, `none` when enumeration fails (missing directory, permissions). -/
abbrev Fs := Path → Option Listing

/-- Model of `std::path::Path::parent` for absolute paths: `None` exactly
at the root. -/
def pathParent : Path → Option Path
  | [] => none
  | l => some l.dropLast

/-- Render an absolute path as a string (`PathBuf` display / `to_str`). -/
def renderPath (p : Path) : String :=
  "/" ++ String.intercalate "/" p

/-- The `FileEntry` struct (main.rs lines 11-16). -/
structure FileEntry where
  name : String
  is_dir : Bool
  size : Nat
  modified : String
deriving DecidableEq

/-- Build one `FileEntry` from a raw entry, exactly as the loop body of
`read_dir` does (main.rs lines 32-63).  `none` models the panic of
`entry.file_type().unwrap()` or `entry.file_name().into_string().unwrap()`. -/
def buildEntry (now : LocalDateTime) (e : RawEntry) : Option FileEntry :=
  match e.fileType, intoString e.name with
  | some isDir, some name =>
    some
      { name := name
        is_dir := isDir
        size :=
          if isDir then (e.childCount.getD 0)
          else ((e.metadata.map Metadata.len).getD 0)
        modified :=
          ((e.metadata.bind Metadata.modified).map (formatModified now)).getD
            "Unknown" }
  | _, _ => none

/-- Run the `for entry in entries` loop of `read_dir` over a listing:
`Err` items are skipped, and a panic anywhere aborts the whole read. -/
def buildEntries (now : LocalDateTime) : Listing → Option (List FileEntry)
  | [] => some []
  | .error _ :: rest => buildEntries now rest
  | .ok e :: rest =>
    match buildEntry now e, buildEntries now rest with
    | some fe, some fes => some (fe :: fes)
    | _, _ => none

/-- The comparator of `self.entries.sort_by(|a, b| b.is_dir.cmp(&a.is_dir))`
(main.rs line 66) read as a boolean "less or equal": `a` may precede `b`
iff `b.is_dir ≤ a.is_dir` (directories first). -/
def entryLE (a b : FileEntry) : Bool :=
  !b.is_dir || a.is_dir

/-- Stable insertion of one element: keep walking while the inserted
element must come strictly after the head. -/
def insertEntry (a : FileEntry) : List FileEntry → List FileEntry
  | [] => [a]
  | b :: t => if entryLE a b then a :: b :: t else b :: insertEntry a t

/-- Model of `Vec::sort_by` with the comparator above.  Rust's `sort_by`
is a stable sort; all stable sorts with the same comparator produce the
same output, so it is modelled by a stable insertion sort. -/
def sortEntries : List FileEntry → List FileEntry
  | [] => []
  | a :: t => insertEntry a (sortEntries t)

/-- The `FileManager` application state (main.rs lines 6-9). -/
structure FileManager where
  current_dir : Path
  entries : List FileEntry
deriving DecidableEq

/-- Model of `FileManager::read_dir` (main.rs lines 28-68): clear the entry list,
then, if the directory enumerates, rebuild and sort it.  `none` models a
panic inside the loop. -/
def read_dir (fs : Fs) (now : LocalDateTime) (s : FileManager) :
    Option FileManager :=
  let cleared : FileManager := { s with entries := [] }
  match fs s.current_dir with
  | none => some cleared
  | some listing =>
    match buildEntries now listing with
    | none => none
    | some es => some { cleared with entries := sortEntries es }

/-- Model of `FileManager::can_navigate_up` (main.rs lines 70-72). -/
def can_navigate_up (s : FileManager) : Bool :=
  (pathParent s.current_dir).isSome

/-- Constant `KB` (main.rs line 167). -/
def KB : Nat := 1024

/-- Constant `MB` (main.rs line 168). -/
def MB : Nat := KB * 1024

/-- Constant `GB` (main.rs line 169). -/
def GB : Nat := MB * 1024

/-- Constant `TB` (main.rs line 170). -/
def TB : Nat := GB * 1024

/-- Model of Rust `format!("{:.2}", n as f64 / d as f64)`: the quotient
rendered with two decimal digits.  The rounding is modelled with exact
rational arithmetic (round half up) rather than binary floating point;
every theorem proved below about `format_file_size` concerns only the unit
suffix, which does not depend on this numeric rendering. -/
def fmt2 (n d : Nat) : String :=
  let h := (100 * n + d / 2) / d
  Nat.repr (h / 100) ++ "." ++ pad2 (h % 100)

/-- Model of `format_file_size` (main.rs lines 166-183). -/
def format_file_size (size : Nat) : String :=
  if size < KB then Nat.repr size ++ " bytes"
  else if size < MB then fmt2 size KB ++ " KiB"
  else if size < GB then fmt2 size MB ++ " MiB"
  else if size < TB then fmt2 size GB ++ " GiB"
  else fmt2 size TB ++ " TiB"

/-- The compile-time platform selected by the `cfg(target_os = ...)`
attributes in `open_file`. -/
inductive Platform where
  | windows
  | macos
  | linux
deriving DecidableEq

/-- The command and argument list that `open_file` (main.rs lines 185-200)
passes to `Command::new(...).arg(...)` on each platform; the spawn outcome
itself is an input of the frame model. -/
def open_file (plat : Platform) (current_dir : Path) (file_name : String) :
    String × List String :=
  match plat with
  | .windows => ("notepad", [renderPath (current_dir ++ [file_name])])
  | .macos => ("open", ["-t", renderPath (current_dir ++ [file_name])])
  | .linux => ("xdg-open", [renderPath (current_dir ++ [file_name])])

/-- The egui interactions one listed row can report in a frame. -/
structure EntryClicks where
  clicked : Bool
  double_clicked : Bool
deriving DecidableEq

/-- The UI events of one frame, as egui reports them to `update`:
which breadcrumb segment was clicked (index 0 is the root component),
whether the "Up" button was clicked, the per-row interactions of the grid,
and whether a `Command::spawn` issued this frame succeeds. -/
structure Frame where
  breadcrumb : Option Nat
  upClicked : Bool
  rows : Nat → EntryClicks
  spawnOk : Bool

/-- Observable side effects of one `update` call. -/
inductive Effect where
  | navAssign : Path → Effect
  | readDirCall : Path → Effect
  | stdout : String → Effect
  | spawnCmd : String → List String → Effect
  | stderr : String → Effect
deriving DecidableEq

/-- The breadcrumb row (main.rs lines 78-94): clicking component `i` of
the current path assigns the prefix of the first `i` components (after the
root) and re-reads the directory.  Indices beyond the rendered components
have no widget. -/
def stepBreadcrumb (fs : Fs) (now : LocalDateTime) (f : Frame)
    (s : FileManager) : Option (FileManager × List Effect) :=
  match f.breadcrumb with
  | none => some (s, [])
  | some i =>
    if i ≤ s.current_dir.length then
      let d := s.current_dir.take i
      match read_dir fs now { s with current_dir := d } with
      | none => none
      | some s' => some (s', [.navAssign d, .readDirCall d])
    else some (s, [])

/-- The "Up" button (main.rs lines 98-103): rendered only when
`can_navigate_up`, and when clicked assigns the parent and re-reads. -/
def stepUp (fs : Fs) (now : LocalDateTime) (f : Frame) (s : FileManager) :
    Option (FileManager × List Effect) :=
  if can_navigate_up s && f.upClicked then
    match pathParent s.current_dir with
    | some p =>
      match read_dir fs now { s with current_dir := p } with
      | none => none
      | some s' => some (s', [.navAssign p, .readDirCall p])
    | none => some (s, [])
  else some (s, [])

/-- The grid loop over `self.entries` (main.rs lines 119-150): row `i`
single-clicked on a directory records `clicked_dir` (a later row
overwrites an earlier one), and double-clicked on a non-directory prints
to stdout, spawns the platform open command and logs a spawn failure to
stderr.  Returns the final `clicked_dir` and the effects in order. -/
def scanRows (plat : Platform) (dir : Path) (f : Frame) :
    List FileEntry → Nat → Option Path × List Effect
  | [], _ => (none, [])
  | e :: rest, i =>
    let rc := f.rows i
    let here : Option Path :=
      if rc.clicked && e.is_dir then some (dir ++ [e.name]) else none
    let effsHere : List Effect :=
      if rc.double_clicked && !e.is_dir then
        [.stdout ("Opening file: " ++ e.name),
         .spawnCmd (open_file plat dir e.name).1 (open_file plat dir e.name).2] ++
        (if f.spawnOk then [] else [.stderr "Failed to open file"])
      else []
    let later := scanRows plat dir f rest (i + 1)
    ((match later.1 with
      | some d => some d
      | none => here), effsHere ++ later.2)

/-- The grid step (main.rs lines 105-156): run the row loop, then, if a
directory row was clicked, assign it to `current_dir` and re-read. -/
def stepEntries (plat : Platform) (fs : Fs) (now : LocalDateTime) (f : Frame)
    (s : FileManager) : Option (FileManager × List Effect) :=
  let scanned := scanRows plat s.current_dir f s.entries 0
  match scanned.1 with
  | none => some (s, scanned.2)
  | some d =>
    match read_dir fs now { s with current_dir := d } with
    | none => none
    | some s' => some (s', scanned.2 ++ [.navAssign d, .readDirCall d])

/-- The final lines of `update` (main.rs lines 160-162): if the entry list
is empty, call `read_dir` again. -/
def stepFinal (fs : Fs) (now : LocalDateTime) (s : FileManager) :
    Option (FileManager × List Effect) :=
  if s.entries.isEmpty then
    match read_dir fs now s with
    | none => none
    | some s' => some (s', [.readDirCall s.current_dir])
  else some (s, [])

/-- Model of `FileManager::update` for one frame (main.rs lines 76-163): the
breadcrumb row, the "Up" button, the entry grid, then the final
empty-list check, in program order, with the effects concatenated. -/
def update (plat : Platform) (fs : Fs) (now : LocalDateTime) (f : Frame)
    (s : FileManager) : Option (FileManager × List Effect) :=
  match stepBreadcrumb fs now f s with
  | none => none
  | some (s1, e1) =>
    match stepUp fs now f s1 with
    | none => none
    | some (s2, e2) =>
      match stepEntries plat fs now f s2 with
      | none => none
      | some (s3, e3) =>
        match stepFinal fs now s3 with
        | none => none
        | some (s4, e4) => some (s4, e1 ++ e2 ++ e3 ++ e4)

/-! ### Helper lemmas -/

/-- The function `read_dir` never changes the current directory. -/
theorem read_dir_current_dir (fs : Fs) (now : LocalDateTime) (s s' : FileManager)
    (h : read_dir fs now s = some s') : s'.current_dir = s.current_dir := by
  unfold read_dir at h
  cases hfs : fs s.current_dir with
  | none => rw [hfs] at h; injection h with h; rw [← h]
  | some listing =>
    rw [hfs] at h
    dsimp only at h
    cases hes : buildEntries now listing with
    | none => rw [hes] at h; exact absurd h (by simp)
    | some es => rw [hes] at h; injection h with h; rw [← h]

/-- A fixed reference instant used by the concrete witnesses below. -/
def now0 : LocalDateTime := ⟨2026, 10, 12, 12, 0⟩

/-! ### C9 -/

/-- C9: `read_dir` is not atomic on failure: if enumerating the current
directory fails, the entry list is empty afterwards — it was cleared
before the enumeration was attempted, so the previously displayed entries
are lost rather than preserved. -/
theorem c9_read_dir_clears_on_failure (fs : Fs) (now : LocalDateTime)
    (s : FileManager) (h : fs s.current_dir = none) :
    read_dir fs now s = some { current_dir := s.current_dir, entries := [] } := by
  unfold read_dir
  rw [h]

/-- Witness for C9: a concrete state with a non-empty entry list whose
directory no longer enumerates. -/
theorem c9_witness :
    (fun _ => none : Fs) (["home"] : Path) = none ∧
    read_dir (fun _ => none) now0 ⟨["home"], [⟨"stale", false, 3, "Unknown"⟩]⟩ =
      some { current_dir := ["home"], entries := [] } :=
  ⟨rfl, c9_read_dir_clears_on_failure (fun _ => none) now0
    ⟨["home"], [⟨"stale", false, 3, "Unknown"⟩]⟩ rfl⟩

/-! ### C7 -/

/-- C7: for every entry produced by a directory read, the size field is
the child count obtained by enumerating the entry when it is a directory
and the byte length from its metadata when it is a file, in either case 0
when the enumeration or the metadata query fails. -/
theorem c7_size_field (now : LocalDateTime) (e : RawEntry) (fe : FileEntry)
    (h : buildEntry now e = some fe) :
    (fe.is_dir = true → fe.size = e.childCount.getD 0) ∧
    (fe.is_dir = false → fe.size = (e.metadata.map Metadata.len).getD 0) := by
  unfold buildEntry at h
  cases hft : e.fileType with
  | none => rw [hft] at h; exact absurd h (by simp)
  | some isDir =>
    cases hnm : intoString e.name with
    | none => rw [hft, hnm] at h; exact absurd h (by simp)
    | some name =>
      rw [hft, hnm] at h
      injection h with h
      subst h
      cases isDir <;> simp

/-- Witness for C7: a directory entry whose nested enumeration reports 5
children, and a file entry with a 7-byte metadata length. -/
theorem c7_witness :
    ((true : Bool) = true →
      (5 : Nat) = (some 5 : Option Nat).getD 0) ∧
    ((true : Bool) = false →
      (5 : Nat) = ((some ⟨7, none⟩ : Option Metadata).map Metadata.len).getD 0) :=
  c7_size_field now0 ⟨.utf8 "d", some true, some 5, some ⟨7, none⟩⟩
    ⟨"d", true, 5, "Unknown"⟩ rfl

/-! ### C3 -/

/-- C3: navigating up is disabled exactly at the filesystem root: the "Up"
action is offered iff `current_dir` has a parent (equivalently, is not the
root), nothing happens without a parent even if a click is reported, and
when taken the action sets `current_dir` to that parent. -/
theorem c3_navigate_up (fs : Fs) (now : LocalDateTime) (f : Frame)
    (s : FileManager) :
    (can_navigate_up s = (pathParent s.current_dir).isSome) ∧
    (can_navigate_up s = true ↔ s.current_dir ≠ []) ∧
    (can_navigate_up s = false → stepUp fs now f s = some (s, [])) ∧
    (∀ p s' effs, f.upClicked = true → pathParent s.current_dir = some p →
      stepUp fs now f s = some (s', effs) → s'.current_dir = p) := by
  refine ⟨rfl, ?_, ?_, ?_⟩
  · cases hcd : s.current_dir with
    | nil => simp [can_navigate_up, pathParent, hcd]
    | cons a l => simp [can_navigate_up, pathParent, hcd]
  · intro h
    unfold stepUp
    rw [h]
    simp
  · intro p s' effs hclick hpar hstep
    unfold stepUp at hstep
    rw [hclick, hpar] at hstep
    have hup : can_navigate_up s = true := by
      unfold can_navigate_up; rw [hpar]; rfl
    rw [hup] at hstep
    simp only [Bool.and_self] at hstep
    cases hrd : read_dir fs now { s with current_dir := p } with
    | none => rw [hrd] at hstep; exact absurd hstep (by simp)
    | some s'' =>
      rw [hrd] at hstep
      have hcd := read_dir_current_dir fs now _ _ hrd
      injection hstep with hstep
      have hss : s'' = s' := congrArg Prod.fst hstep
      rw [← hss, hcd]

/-- Witness for C3: from `/home/user`, a clicked "Up" button lands in
`/home`. -/
theorem c3_witness :
    (FileManager.mk ["home"] []).current_dir = ["home"] :=
  (c3_navigate_up (fun _ => some []) now0 ⟨none, true, fun _ => ⟨false, false⟩, true⟩
      ⟨["home", "user"], []⟩).2.2.2 ["home"] ⟨["home"], []⟩
    [.navAssign ["home"], .readDirCall ["home"]] rfl rfl rfl

/-! ### C10 -/

/-- C10: at the end of every frame, if the entry list is empty then
`read_dir` is invoked again; consequently, in a state whose current
directory is empty or cannot be enumerated, an idle frame (no breadcrumb
click, no "Up" click) still re-reads the directory from the filesystem,
and the resulting state repeats, so this happens on every frame. -/
theorem c10_empty_reread :
    (∀ (fs : Fs) (now : LocalDateTime) (s : FileManager) s' effs,
      s.entries = [] → stepFinal fs now s = some (s', effs) →
      Effect.readDirCall s.current_dir ∈ effs) ∧
    (∀ (fs : Fs) (now : LocalDateTime) (s : FileManager),
      s.entries ≠ [] → stepFinal fs now s = some (s, [])) ∧
    (∀ (plat : Platform) (fs : Fs) (now : LocalDateTime) (f : Frame)
      (s : FileManager),
      f.breadcrumb = none → f.upClicked = false → s.entries = [] →
      (fs s.current_dir = none ∨ fs s.current_dir = some []) →
      update plat fs now f s =
        some ({ current_dir := s.current_dir, entries := [] },
          [Effect.readDirCall s.current_dir])) := by
  refine ⟨?_, ?_, ?_⟩
  · intro fs now s s' effs hent hstep
    unfold stepFinal at hstep
    rw [hent] at hstep
    dsimp only [List.isEmpty_nil, if_true] at hstep
    cases hrd : read_dir fs now s with
    | none => rw [hrd] at hstep; exact absurd hstep (by simp)
    | some s'' =>
      rw [hrd] at hstep
      injection hstep with hstep
      have heff : [Effect.readDirCall s.current_dir] = effs :=
        congrArg Prod.snd hstep
      rw [← heff]
      exact List.mem_singleton.mpr rfl
  · intro fs now s hent
    unfold stepFinal
    cases hc : s.entries with
    | nil => exact absurd hc hent
    | cons a l => simp [hc]
  · intro plat fs now f s hb hup hent hfs
    have h1 : stepBreadcrumb fs now f s = some (s, []) := by
      unfold stepBreadcrumb; rw [hb]
    have h2 : stepUp fs now f s = some (s, []) := by
      unfold stepUp; rw [hup]; simp
    have h3 : stepEntries plat fs now f s = some (s, []) := by
      unfold stepEntries; rw [hent]; rfl
    have hrd : read_dir fs now s =
        some { current_dir := s.current_dir, entries := [] } := by
      unfold read_dir
      rcases hfs with hfs | hfs
      · rw [hfs]
      · rw [hfs]; rfl
    have h4 : stepFinal fs now s =
        some ({ current_dir := s.current_dir, entries := [] },
          [Effect.readDirCall s.current_dir]) := by
      unfold stepFinal
      rw [hent]
      dsimp only [List.isEmpty_nil, if_true]
      rw [hrd]
      rfl
    unfold update
    rw [h1]
    dsimp only
    rw [h2]
    dsimp only
    rw [h3]
    dsimp only
    rw [h4]
    rfl

/-- Witness for C10: an idle frame over an unreadable directory performs a
directory read and returns to the same state. -/
theorem c10_witness :
    update Platform.linux (fun _ => none) now0
      ⟨none, false, fun _ => ⟨false, false⟩, true⟩ ⟨["d"], []⟩ =
      some ({ current_dir := ["d"], entries := [] },
        [Effect.readDirCall ["d"]]) :=
  c10_empty_reread.2.2 Platform.linux (fun _ => none) now0
    ⟨none, false, fun _ => ⟨false, false⟩, true⟩ ⟨["d"], []⟩
    rfl rfl rfl (Or.inl rfl)

/-! ### C6 -/

/-- A string starting with a given character differs from one starting
with a different character. -/
theorem ne_of_head_char (x y : String) (c d : Char) (xs ys : List Char)
    (hx : x.data = c :: xs) (hy : y.data = d :: ys) (hcd : c ≠ d) :
    ∀ s : String, x ++ s ≠ y := by
  intro s h
  have h2 := congrArg String.data h
  rw [String.data_append, hx, hy] at h2
  injection h2 with h3 _
  exact hcd h3

/-- The date branch of `formatModified` contains a slash. -/
theorem slash_mem_fmtDMY (t : LocalDateTime) : '/' ∈ (fmtDMY t).data := by
  unfold fmtDMY
  rw [String.data_append, String.data_append, String.data_append,
    String.data_append]
  have hm : '/' ∈ ("/").data := by decide
  simp only [List.mem_append]
  left
  right
  exact hm

/-- The function `formatModified` never renders the failure marker. -/
theorem formatModified_ne_unknown (now t : LocalDateTime) :
    formatModified now t ≠ "Unknown" := by
  unfold formatModified
  dsimp only
  split
  · exact ne_of_head_char "Today at " "Unknown" 'T' 'U'
      ['o', 'd', 'a', 'y', ' ', 'a', 't', ' ']
      ['n', 'k', 'n', 'o', 'w', 'n'] (by decide) (by decide) (by decide)
      (fmtHM t)
  · split
    · exact ne_of_head_char "Yesterday at " "Unknown" 'Y' 'U'
        ['e', 's', 't', 'e', 'r', 'd', 'a', 'y', ' ', 'a', 't', ' ']
        ['n', 'k', 'n', 'o', 'w', 'n'] (by decide) (by decide) (by decide)
        (fmtHM t)
    · intro h
      have h2 := congrArg String.data h
      have hmem : '/' ∈ (fmtDMY t ++ " at " ++ fmtHM t).data := by
        rw [String.data_append, String.data_append]
        exact List.mem_append.mpr (Or.inl (List.mem_append.mpr
          (Or.inl (slash_mem_fmtDMY t))))
      rw [h2] at hmem
      exact absurd hmem (by decide)

/-- C6: for every produced entry, the displayed modification field is
"Unknown" exactly when the metadata or its modified time cannot be
obtained; otherwise it is "Today at HH:MM" when the modification date
equals today's date, "Yesterday at HH:MM" when it equals yesterday's
date, and "DD/MM/YYYY at HH:MM" otherwise. -/
theorem c6_modified_field (now : LocalDateTime) (e : RawEntry)
    (fe : FileEntry) (h : buildEntry now e = some fe) :
    (fe.modified = "Unknown" ↔ e.metadata.bind Metadata.modified = none) ∧
    (∀ t, e.metadata.bind Metadata.modified = some t →
      fe.modified =
        (if dateNaive t = dateNaive now then "Today at " ++ fmtHM t
         else if some (dateNaive t) = pred_opt (dateNaive now) then
           "Yesterday at " ++ fmtHM t
         else fmtDMY t ++ " at " ++ fmtHM t)) := by
  unfold buildEntry at h
  cases hft : e.fileType with
  | none => rw [hft] at h; exact absurd h (by simp)
  | some isDir =>
    cases hnm : intoString e.name with
    | none => rw [hft, hnm] at h; exact absurd h (by simp)
    | some name =>
      rw [hft, hnm] at h
      injection h with h
      subst h
      cases hmod : e.metadata.bind Metadata.modified with
      | none => simp
      | some t =>
        constructor
        · simp only [Option.map_some, Option.getD_some]
          constructor
          · intro hu; exact absurd hu (formatModified_ne_unknown now t)
          · intro hu; exact absurd hu (by simp)
        · intro t' ht'
          injection ht' with ht'
          subst ht'
          simp only [Option.map_some, Option.getD_some]
          rfl

/-- Witness for C6: a file modified the day before the reference instant
is rendered as "Yesterday at 09:30". -/
theorem c6_witness :
    (FileEntry.mk "f" false 10 "Yesterday at 09:30").modified =
      (if dateNaive ⟨2026, 10, 11, 9, 30⟩ = dateNaive now0 then
        "Today at " ++ fmtHM ⟨2026, 10, 11, 9, 30⟩
       else if some (dateNaive ⟨2026, 10, 11, 9, 30⟩) =
           pred_opt (dateNaive now0) then
         "Yesterday at " ++ fmtHM ⟨2026, 10, 11, 9, 30⟩
       else fmtDMY ⟨2026, 10, 11, 9, 30⟩ ++ " at " ++
         fmtHM ⟨2026, 10, 11, 9, 30⟩) :=
  (c6_modified_field now0
      ⟨.utf8 "f", some false, none, some ⟨10, some ⟨2026, 10, 11, 9, 30⟩⟩⟩
      ⟨"f", false, 10, "Yesterday at 09:30"⟩ rfl).2
    ⟨2026, 10, 11, 9, 30⟩ rfl

/-! ### C5 -/

/-- A directory containing one entry whose file type query fails. -/
def fsBadFileType : Fs :=
  fun _ => some [Except.ok ⟨.utf8 "f", none, none, some ⟨0, none⟩⟩]

/-- A directory containing one entry whose name is not valid UTF-8. -/
def fsBadName : Fs :=
  fun _ => some [Except.ok ⟨.invalid 0, some false, none, none⟩]

/-- Counterexample to C5: a directory read does not complete for every
possible directory content — an entry whose file type query fails, or
whose name is not valid UTF-8, makes `read_dir` panic
(`entry.file_type().unwrap()` at main.rs line 33,
`entry.file_name().into_string().unwrap()` at line 34), modelled as
`none`. -/
theorem c5_counterexample :
    read_dir fsBadFileType now0 ⟨["a"], []⟩ = none ∧
    read_dir fsBadName now0 ⟨["a"], []⟩ = none :=
  ⟨rfl, rfl⟩

/-- C5 (amended): per-item enumeration errors are skipped and metadata
failures are tolerated — the read completes for every directory content
in which each successfully enumerated entry has an obtainable file type
and a UTF-8 name (without that proviso the loop panics on `unwrap`). -/
theorem c5_amended_errors_swallowed (now : LocalDateTime) :
    (∀ listing : Listing,
      (∀ e : RawEntry, Except.ok e ∈ listing →
        e.fileType.isSome = true ∧ (intoString e.name).isSome = true) →
      (buildEntries now listing).isSome = true) ∧
    (∀ listing : Listing,
      buildEntries now (Except.error () :: listing) = buildEntries now listing) ∧
    (∀ (fs : Fs) (s : FileManager) (listing : Listing),
      fs s.current_dir = some listing →
      (∀ e : RawEntry, Except.ok e ∈ listing →
        e.fileType.isSome = true ∧ (intoString e.name).isSome = true) →
      (read_dir fs now s).isSome = true) := by
  have hbuild : ∀ listing : Listing,
      (∀ e : RawEntry, Except.ok e ∈ listing →
        e.fileType.isSome = true ∧ (intoString e.name).isSome = true) →
      (buildEntries now listing).isSome = true := by
    intro listing
    induction listing with
    | nil => intro _; rfl
    | cons item rest ih =>
      intro h
      cases item with
      | error u =>
        have := ih (fun e he => h e (List.mem_cons_of_mem _ he))
        cases u
        exact this
      | ok e =>
        have he := h e (List.mem_cons_self _ _)
        have hrest := ih (fun e' he' => h e' (List.mem_cons_of_mem _ he'))
        obtain ⟨isDir, hft⟩ := Option.isSome_iff_exists.mp he.1
        obtain ⟨name, hnm⟩ := Option.isSome_iff_exists.mp he.2
        obtain ⟨fes, hfes⟩ := Option.isSome_iff_exists.mp hrest
        show (buildEntries now (Except.ok e :: rest)).isSome = true
        unfold buildEntries
        rw [hfes]
        unfold buildEntry
        rw [hft, hnm]
        rfl
  refine ⟨hbuild, ?_, ?_⟩
  · intro listing; rfl
  · intro fs s listing hfs h
    unfold read_dir
    rw [hfs]
    dsimp only
    obtain ⟨fes, hfes⟩ := Option.isSome_iff_exists.mp (hbuild listing h)
    rw [hfes]
    rfl

/-- Witness for C5 (amended): a listing with an error item, an entry with
failing metadata and an entry with a failing child-count enumeration
still builds. -/
theorem c5_witness :
    (buildEntries now0
      [Except.error (), Except.ok ⟨.utf8 "d", some true, none, none⟩,
       Except.ok ⟨.utf8 "f", some false, none, none⟩]).isSome = true :=
  (c5_amended_errors_swallowed now0).1
    [Except.error (), Except.ok ⟨.utf8 "d", some true, none, none⟩,
     Except.ok ⟨.utf8 "f", some false, none, none⟩]
    (by
      intro e he
      simp only [List.mem_cons, List.not_mem_nil, or_false] at he
      rcases he with he | he | he
      · exact absurd he (by simp)
      · rw [Except.ok.injEq] at he; subst he; exact ⟨rfl, rfl⟩
      · rw [Except.ok.injEq] at he; subst he; exact ⟨rfl, rfl⟩)

/-! ### C1 -/

/-- Inserting into a "directories then files" list keeps that shape:
a directory goes to the front, a file goes right after the directories. -/
theorem insertEntry_dirs_files (a : FileEntry) :
    ∀ (d f : List FileEntry), (∀ b ∈ d, b.is_dir = true) →
    (∀ b ∈ f, b.is_dir = false) →
    insertEntry a (d ++ f) =
      if a.is_dir then a :: (d ++ f) else d ++ a :: f := by
  intro d
  induction d with
  | nil =>
    intro f _ hf
    cases f with
    | nil => cases ha : a.is_dir <;> simp [insertEntry, ha]
    | cons b t =>
      have hb : b.is_dir = false := hf b (List.mem_cons_self _ _)
      cases ha : a.is_dir <;>
        simp [insertEntry, entryLE, hb, ha]
  | cons b d' ih =>
    intro f hd hf
    have hb : b.is_dir = true := hd b (List.mem_cons_self _ _)
    have hd' : ∀ c ∈ d', c.is_dir = true :=
      fun c hc => hd c (List.mem_cons_of_mem _ hc)
    cases ha : a.is_dir with
    | true => simp [insertEntry, entryLE, hb, ha]
    | false =>
      simp only [List.cons_append, insertEntry, entryLE, hb, ha,
        List.append_eq, Bool.not_true, Bool.false_or, if_false]
      rw [ih f hd' hf]
      simp [ha]

/-- The stable sort of `read_dir` is exactly "the directories in
enumeration order, then the files in enumeration order". -/
theorem sortEntries_eq_filters : ∀ l : List FileEntry,
    sortEntries l =
      l.filter (fun e => e.is_dir) ++ l.filter (fun e => !e.is_dir) := by
  intro l
  induction l with
  | nil => rfl
  | cons a t ih =>
    show insertEntry a (sortEntries t) = _
    rw [ih]
    rw [insertEntry_dirs_files a _ _
      (fun b hb => (List.mem_filter.mp hb).2)
      (fun b hb => by
        have := (List.mem_filter.mp hb).2
        simpa using this)]
    cases ha : a.is_dir <;> simp [List.filter_cons, ha]

/-- Directories-first lists are pairwise sorted for the comparator. -/
theorem pairwise_dirs_files (d f : List FileEntry)
    (hd : ∀ b ∈ d, b.is_dir = true) (hf : ∀ b ∈ f, b.is_dir = false) :
    List.Pairwise (fun a b => b.is_dir = true → a.is_dir = true) (d ++ f) := by
  rw [List.pairwise_append]
  refine ⟨?_, ?_, ?_⟩
  · exact List.pairwise_of_forall_mem_list
      (fun a ha _ _ => fun _ => hd a ha)
  · exact List.pairwise_of_forall_mem_list
      (fun a _ b hb => fun hb' => absurd hb' (by simp [hf b hb]))
  · intro a ha b hb hb'
    exact absurd hb' (by simp [hf b hb])

/-- C1: after every call to `read_dir` that successfully enumerates the
current directory, the entry list is sorted directories-first, the
relative order of entries with the same is-directory flag is their
enumeration order (the sort is stable), and in fact the list is exactly
the enumerated directories followed by the enumerated files; this holds
for every reachable state since it holds for every state. -/
theorem c1_sorted_dirs_first (fs : Fs) (now : LocalDateTime)
    (s : FileManager) (listing : Listing) (es : List FileEntry)
    (s' : FileManager) (hfs : fs s.current_dir = some listing)
    (hes : buildEntries now listing = some es)
    (hrd : read_dir fs now s = some s') :
    List.Pairwise (fun a b => b.is_dir = true → a.is_dir = true) s'.entries ∧
    s'.entries.filter (fun e => e.is_dir) = es.filter (fun e => e.is_dir) ∧
    s'.entries.filter (fun e => !e.is_dir) =
      es.filter (fun e => !e.is_dir) ∧
    s'.entries =
      es.filter (fun e => e.is_dir) ++ es.filter (fun e => !e.is_dir) := by
  have hent : s'.entries = sortEntries es := by
    unfold read_dir at hrd
    rw [hfs] at hrd
    dsimp only at hrd
    rw [hes] at hrd
    injection hrd with hrd
    rw [← hrd]
  have heq := sortEntries_eq_filters es
  have hd : ∀ b ∈ es.filter (fun e => e.is_dir), b.is_dir = true :=
    fun b hb => (List.mem_filter.mp hb).2
  have hf : ∀ b ∈ es.filter (fun e => !e.is_dir), b.is_dir = false :=
    fun b hb => by
      have := (List.mem_filter.mp hb).2
      simpa using this
  refine ⟨?_, ?_, ?_, ?_⟩
  · rw [hent, heq]
    exact pairwise_dirs_files _ _ hd hf
  · rw [hent, heq, List.filter_append]
    have h1 : List.filter (fun e => e.is_dir)
        (List.filter (fun e => e.is_dir) es) =
        List.filter (fun e => e.is_dir) es :=
      List.filter_eq_self.mpr hd
    have h2 : List.filter (fun e => e.is_dir)
        (List.filter (fun e => !e.is_dir) es) = [] :=
      List.filter_eq_nil_iff.mpr (fun b hb => by simp [hf b hb])
    rw [h1, h2, List.append_nil]
  · rw [hent, heq, List.filter_append]
    have h1 : List.filter (fun e => !e.is_dir)
        (List.filter (fun e => e.is_dir) es) = [] :=
      List.filter_eq_nil_iff.mpr (fun b hb => by simp [hd b hb])
    have h2 : List.filter (fun e => !e.is_dir)
        (List.filter (fun e => !e.is_dir) es) =
        List.filter (fun e => !e.is_dir) es :=
      List.filter_eq_self.mpr (fun b hb => by simp [hf b hb])
    rw [h1, h2, List.nil_append]
  · rw [hent, heq]

/-- Witness for C1: a directory with interleaved files and directories is
listed as its directories then its files, each group in enumeration
order. -/
theorem c1_witness :
    List.Pairwise (fun a b : FileEntry => b.is_dir = true → a.is_dir = true)
      [⟨"b", true, 0, "Unknown"⟩, ⟨"d", true, 0, "Unknown"⟩,
       ⟨"a", false, 0, "Unknown"⟩, ⟨"c", false, 0, "Unknown"⟩] ∧
    ([⟨"b", true, 0, "Unknown"⟩, ⟨"d", true, 0, "Unknown"⟩,
      ⟨"a", false, 0, "Unknown"⟩,
      ⟨"c", false, 0, "Unknown"⟩] : List FileEntry).filter
        (fun e => e.is_dir) =
      ([⟨"a", false, 0, "Unknown"⟩, ⟨"b", true, 0, "Unknown"⟩,
        ⟨"c", false, 0, "Unknown"⟩,
        ⟨"d", true, 0, "Unknown"⟩] : List FileEntry).filter
        (fun e => e.is_dir) ∧
    ([⟨"b", true, 0, "Unknown"⟩, ⟨"d", true, 0, "Unknown"⟩,
      ⟨"a", false, 0, "Unknown"⟩,
      ⟨"c", false, 0, "Unknown"⟩] : List FileEntry).filter
        (fun e => !e.is_dir) =
      ([⟨"a", false, 0, "Unknown"⟩, ⟨"b", true, 0, "Unknown"⟩,
        ⟨"c", false, 0, "Unknown"⟩,
        ⟨"d", true, 0, "Unknown"⟩] : List FileEntry).filter
        (fun e => !e.is_dir) ∧
    ([⟨"b", true, 0, "Unknown"⟩, ⟨"d", true, 0, "Unknown"⟩,
      ⟨"a", false, 0, "Unknown"⟩,
      ⟨"c", false, 0, "Unknown"⟩] : List FileEntry) =
      ([⟨"a", false, 0, "Unknown"⟩, ⟨"b", true, 0, "Unknown"⟩,
        ⟨"c", false, 0, "Unknown"⟩,
        ⟨"d", true, 0, "Unknown"⟩] : List FileEntry).filter
          (fun e => e.is_dir) ++
        ([⟨"a", false, 0, "Unknown"⟩, ⟨"b", true, 0, "Unknown"⟩,
          ⟨"c", false, 0, "Unknown"⟩,
          ⟨"d", true, 0, "Unknown"⟩] : List FileEntry).filter
          (fun e => !e.is_dir) := by
  have h := c1_sorted_dirs_first
    (fun _ => some
      [Except.ok ⟨.utf8 "a", some false, none, none⟩,
       Except.ok ⟨.utf8 "b", some true, none, none⟩,
       Except.ok ⟨.utf8 "c", some false, none, none⟩,
       Except.ok ⟨.utf8 "d", some true, none, none⟩])
    now0 ⟨["h"], []⟩ _
    [⟨"a", false, 0, "Unknown"⟩, ⟨"b", true, 0, "Unknown"⟩,
     ⟨"c", false, 0, "Unknown"⟩, ⟨"d", true, 0, "Unknown"⟩]
    ⟨["h"], [⟨"b", true, 0, "Unknown"⟩, ⟨"d", true, 0, "Unknown"⟩,
      ⟨"a", false, 0, "Unknown"⟩, ⟨"c", false, 0, "Unknown"⟩]⟩
    rfl rfl rfl
  exact h

/-! ### C2 -/

/-- "`s` ends in `suf`": the character data of `s` decomposes as some
list followed by the data of `suf`. -/
def EndsIn (s suf : String) : Prop :=
  ∃ p : List Char, s.data = p ++ suf.data

/-- Appending: `x ++ a` ends in `b` whenever `a` itself ends in `b`. -/
theorem endsIn_append (x a b : String) (h : ∃ q : List Char, a.data = q ++ b.data) :
    EndsIn (x ++ a) b := by
  obtain ⟨q, hq⟩ := h
  exact ⟨x.data ++ q, by rw [String.data_append, hq, List.append_assoc]⟩

/-- If two concatenations are equal then one left part is a prefix of the
other. -/
theorem isPrefixOf_or_of_append_eq :
    ∀ (u v x y : List Char), u ++ x = v ++ y →
    u.isPrefixOf v = true ∨ v.isPrefixOf u = true := by
  intro u
  induction u with
  | nil => intro v x y _; left; exact List.isPrefixOf_nil_left
  | cons c u' ih =>
    intro v x y h
    cases v with
    | nil => right; exact List.isPrefixOf_nil_left
    | cons d v' =>
      rw [List.cons_append, List.cons_append] at h
      injection h with h1 h2
      subst h1
      rcases ih v' x y h2 with h | h
      · left
        rw [List.isPrefixOf_cons₂, h, beq_self_eq_true]
        rfl
      · right
        rw [List.isPrefixOf_cons₂, h, beq_self_eq_true]
        rfl

/-- Conversely `x ++ a` cannot end in `b` when, read from the end, `a` and `b`
disagree (neither reversed literal is a prefix of the other). -/
theorem not_endsIn_append (x a b : String)
    (h1 : a.data.reverse.isPrefixOf b.data.reverse = false)
    (h2 : b.data.reverse.isPrefixOf a.data.reverse = false) :
    ¬ EndsIn (x ++ a) b := by
  rintro ⟨p, hp⟩
  rw [String.data_append] at hp
  have hr := congrArg List.reverse hp
  rw [List.reverse_append, List.reverse_append] at hr
  rcases isPrefixOf_or_of_append_eq _ _ _ _ hr with h | h
  · rw [h1] at h; exact Bool.false_ne_true h
  · rw [h2] at h; exact Bool.false_ne_true h

/-- C2: `format_file_size` selects the unit suffix exactly at 1024-power
boundaries: the result ends in "bytes" iff the input is below 1024, in
"KiB" iff it is in `[1024, 1024^2)`, in "MiB" iff in `[1024^2, 1024^3)`,
in "GiB" iff in `[1024^3, 1024^4)`, and in "TiB" iff it is at least
`1024^4`. -/
theorem c2_size_suffix (n : Nat) :
    (EndsIn (format_file_size n) "bytes" ↔ n < 1024) ∧
    (EndsIn (format_file_size n) "KiB" ↔ 1024 ≤ n ∧ n < 1024 ^ 2) ∧
    (EndsIn (format_file_size n) "MiB" ↔ 1024 ^ 2 ≤ n ∧ n < 1024 ^ 3) ∧
    (EndsIn (format_file_size n) "GiB" ↔ 1024 ^ 3 ≤ n ∧ n < 1024 ^ 4) ∧
    (EndsIn (format_file_size n) "TiB" ↔ 1024 ^ 4 ≤ n) := by
  have hKB : KB = 1024 := rfl
  have hMB : MB = 1024 ^ 2 := by decide
  have hGB : GB = 1024 ^ 3 := by decide
  have hTB : TB = 1024 ^ 4 := by decide
  by_cases h1 : n < KB
  · have hv : format_file_size n = Nat.repr n ++ " bytes" := by
      unfold format_file_size; rw [if_pos h1]
    rw [hv]
    refine ⟨iff_of_true (endsIn_append _ _ _ ⟨[' '], by decide⟩) (by omega), ?_, ?_, ?_, ?_⟩ <;>
      exact iff_of_false (not_endsIn_append _ _ _ (by decide) (by decide))
        (by rw [hKB] at h1; omega)
  · by_cases h2 : n < MB
    · have hv : format_file_size n = fmt2 n KB ++ " KiB" := by
        unfold format_file_size; rw [if_neg h1, if_pos h2]
      rw [hv]
      refine ⟨?_, iff_of_true (endsIn_append _ _ _ ⟨[' '], by decide⟩)
        (by rw [hKB] at h1; rw [hMB] at h2; omega), ?_, ?_, ?_⟩ <;>
        exact iff_of_false (not_endsIn_append _ _ _ (by decide) (by decide))
          (by rw [hKB] at h1; rw [hMB] at h2; omega)
    · by_cases h3 : n < GB
      · have hv : format_file_size n = fmt2 n MB ++ " MiB" := by
          unfold format_file_size; rw [if_neg h1, if_neg h2, if_pos h3]
        rw [hv]
        refine ⟨?_, ?_, iff_of_true (endsIn_append _ _ _ ⟨[' '], by decide⟩)
          (by rw [hMB] at h2; rw [hGB] at h3; omega), ?_, ?_⟩ <;>
          exact iff_of_false (not_endsIn_append _ _ _ (by decide) (by decide))
            (by rw [hMB] at h2; rw [hGB] at h3; omega)
      · by_cases h4 : n < TB
        · have hv : format_file_size n = fmt2 n GB ++ " GiB" := by
            unfold format_file_size; rw [if_neg h1, if_neg h2, if_neg h3, if_pos h4]
          rw [hv]
          refine ⟨?_, ?_, ?_, iff_of_true (endsIn_append _ _ _ ⟨[' '], by decide⟩)
            (by rw [hGB] at h3; rw [hTB] at h4; omega), ?_⟩ <;>
            exact iff_of_false (not_endsIn_append _ _ _ (by decide) (by decide))
              (by rw [hGB] at h3; rw [hTB] at h4; omega)
        · have hv : format_file_size n = fmt2 n TB ++ " TiB" := by
            unfold format_file_size; rw [if_neg h1, if_neg h2, if_neg h3, if_neg h4]
          rw [hv]
          refine ⟨?_, ?_, ?_, ?_, iff_of_true (endsIn_append _ _ _ ⟨[' '], by decide⟩)
            (by rw [hTB] at h4; omega)⟩ <;>
            exact iff_of_false (not_endsIn_append _ _ _ (by decide) (by decide))
              (by rw [hTB] at h4; omega)

/-- Witness for C2: 2048 bytes is rendered with the "KiB" suffix. -/
theorem c2_witness : EndsIn (format_file_size 2048) "KiB" :=
  (c2_size_suffix 2048).2.1.mpr ⟨by omega, by omega⟩

/-! ### C8 -/

/-- Unfolding equation for `scanRows` on a cons cell. -/
theorem scanRows_cons (plat : Platform) (dir : Path) (f : Frame)
    (e : FileEntry) (rest : List FileEntry) (i : Nat) :
    scanRows plat dir f (e :: rest) i =
      ((match (scanRows plat dir f rest (i + 1)).1 with
        | some d => some d
        | none =>
          if (f.rows i).clicked && e.is_dir then some (dir ++ [e.name])
          else none),
       (if (f.rows i).double_clicked && !e.is_dir then
          [Effect.stdout ("Opening file: " ++ e.name),
           Effect.spawnCmd (open_file plat dir e.name).1
             (open_file plat dir e.name).2] ++
          (if f.spawnOk then [] else [Effect.stderr "Failed to open file"])
        else []) ++ (scanRows plat dir f rest (i + 1)).2) := rfl

/-- C8: a double-click on a listed non-directory row, and nothing else,
spawns the platform-specific open command on `current_dir` joined with
the entry name (notepad / open / xdg-open); when the spawn fails the
failure is logged to standard error; a directory row never spawns. -/
theorem c8_open_file (plat : Platform) (dir : Path) (f : Frame) :
    (∀ (entries : List FileEntry) (i : Nat) (c : String)
      (args : List String),
      Effect.spawnCmd c args ∈ (scanRows plat dir f entries i).2 ↔
        ∃ j e, entries[j]? = some e ∧
          (f.rows (i + j)).double_clicked = true ∧ e.is_dir = false ∧
          c = (open_file plat dir e.name).1 ∧
          args = (open_file plat dir e.name).2) ∧
    (∀ (entries : List FileEntry) (i : Nat) (c : String)
      (args : List String),
      f.spawnOk = false →
      Effect.spawnCmd c args ∈ (scanRows plat dir f entries i).2 →
      Effect.stderr "Failed to open file" ∈
        (scanRows plat dir f entries i).2) ∧
    (∀ name : String,
      (open_file plat dir name).2.getLast? =
        some (renderPath (dir ++ [name])) ∧
      (open_file Platform.windows dir name).1 = "notepad" ∧
      (open_file Platform.macos dir name).1 = "open" ∧
      (open_file Platform.linux dir name).1 = "xdg-open") := by
  refine ⟨?_, ?_, ?_⟩
  · intro entries
    induction entries with
    | nil =>
      intro i c args
      constructor
      · intro h; exact absurd h (by simp [scanRows])
      · rintro ⟨j, e, hget, -⟩
        exact absurd hget (by simp)
    | cons e rest ih =>
      intro i c args
      rw [scanRows_cons]
      dsimp only
      rw [List.mem_append]
      constructor
      · intro h
        rcases h with h | h
        · by_cases hcond : ((f.rows i).double_clicked && !e.is_dir) = true
          · rw [if_pos hcond] at h
            rw [Bool.and_eq_true] at hcond
            obtain ⟨hdc, hdir⟩ := hcond
            simp only [List.mem_append, List.mem_cons,
              List.not_mem_nil, or_false] at h
            rcases h with (h | h) | h
            · exact absurd h (by simp)
            · refine ⟨0, e, by simp, ?_, ?_, ?_, ?_⟩
              · rw [Nat.add_zero]; exact hdc
              · simpa using hdir
              · exact (Effect.spawnCmd.inj h).1
              · exact (Effect.spawnCmd.inj h).2
            · by_cases hok : f.spawnOk
              · rw [if_pos hok] at h; exact absurd h (by simp)
              · rw [if_neg hok] at h
                simp only [List.mem_cons, List.not_mem_nil, or_false] at h
                exact absurd h (by simp)
          · rw [if_neg hcond] at h
            exact absurd h (by simp)
        · obtain ⟨j, e', hget, hdc, hdir, hc, ha⟩ := (ih (i + 1) c args).mp h
          refine ⟨j + 1, e', by simpa using hget, ?_, hdir, hc, ha⟩
          rw [show i + (j + 1) = i + 1 + j by omega]
          exact hdc
      · rintro ⟨j, e', hget, hdc, hdir, hc, ha⟩
        cases j with
        | zero =>
          have he : e' = e := by
            simp only [List.getElem?_cons_zero, Option.some.injEq] at hget
            exact hget.symm
          subst he
          rw [Nat.add_zero] at hdc
          have hcond : ((f.rows i).double_clicked && !e'.is_dir) = true := by
            rw [hdc, hdir]; rfl
          left
          rw [if_pos hcond, hc, ha]
          simp
        | succ j =>
          right
          refine (ih (i + 1) c args).mpr ⟨j, e', by simpa using hget, ?_,
            hdir, hc, ha⟩
          rw [show i + 1 + j = i + (j + 1) by omega]
          exact hdc
  · intro entries
    induction entries with
    | nil =>
      intro i c args _ h
      exact absurd h (by simp [scanRows])
    | cons e rest ih =>
      intro i c args hok h
      rw [scanRows_cons] at h ⊢
      dsimp only at h ⊢
      rw [List.mem_append] at h ⊢
      rcases h with h | h
      · by_cases hcond : ((f.rows i).double_clicked && !e.is_dir) = true
        · left
          rw [if_pos hcond, hok]
          simp
        · rw [if_neg hcond] at h
          exact absurd h (by simp)
      · right
        exact ih (i + 1) c args hok h
  · intro name
    refine ⟨?_, rfl, rfl, rfl⟩
    cases plat <;> simp [open_file]

/-- Witness for C8: with one listed file row double-clicked on Linux and a
failing spawn, the xdg-open command is emitted and the failure logged. -/
theorem c8_witness :
    Effect.spawnCmd
        (open_file Platform.linux ["d"] "f.txt").1
        (open_file Platform.linux ["d"] "f.txt").2 ∈
      (scanRows Platform.linux ["d"]
        ⟨none, false, fun _ => ⟨false, true⟩, false⟩
        [⟨"f.txt", false, 3, "Unknown"⟩] 0).2 ∧
    Effect.stderr "Failed to open file" ∈
      (scanRows Platform.linux ["d"]
        ⟨none, false, fun _ => ⟨false, true⟩, false⟩
        [⟨"f.txt", false, 3, "Unknown"⟩] 0).2 := by
  have h := c8_open_file Platform.linux ["d"]
    ⟨none, false, fun _ => ⟨false, true⟩, false⟩
  have hmem := (h.1 [⟨"f.txt", false, 3, "Unknown"⟩] 0
    (open_file Platform.linux ["d"] "f.txt").1
    (open_file Platform.linux ["d"] "f.txt").2).mpr
    ⟨0, ⟨"f.txt", false, 3, "Unknown"⟩, rfl, rfl, rfl, rfl, rfl⟩
  exact ⟨hmem, h.2.1 [⟨"f.txt", false, 3, "Unknown"⟩] 0 _ _ rfl hmem⟩

/-! ### C4 -/

/-- The grid row loop never assigns the current directory itself: its
effects are only stdout, spawn and stderr. -/
theorem scanRows_snd_no_nav (plat : Platform) (dir : Path) (f : Frame) :
    ∀ (entries : List FileEntry) (i : Nat) (d : Path),
      Effect.navAssign d ∉ (scanRows plat dir f entries i).2 := by
  intro entries
  induction entries with
  | nil => intro i d h; exact absurd h (by simp [scanRows])
  | cons e rest ih =>
    intro i d h
    rw [scanRows_cons] at h
    dsimp only at h
    rw [List.mem_append] at h
    rcases h with h | h
    · by_cases hcond : ((f.rows i).double_clicked && !e.is_dir) = true
      · rw [if_pos hcond] at h
        by_cases hok : f.spawnOk
        · rw [if_pos hok] at h; exact absurd h (by simp)
        · rw [if_neg hok] at h; exact absurd h (by simp)
      · rw [if_neg hcond] at h; exact absurd h (by simp)
    · exact ih (i + 1) d h

/-- When no listed directory row is clicked, the row loop selects no
directory — clicks on file rows (and on indices past the listed rows)
are irrelevant, because the recorded condition is
`clicked && entry.is_dir`. -/
theorem scanRows_fst_none (plat : Platform) (dir : Path) (f : Frame) :
    ∀ (entries : List FileEntry) (i : Nat),
      (∀ (j : Nat) (e : FileEntry), entries[j]? = some e → e.is_dir = true →
        (f.rows (i + j)).clicked = false) →
      (scanRows plat dir f entries i).1 = none := by
  intro entries
  induction entries with
  | nil => intro i _; rfl
  | cons e rest ih =>
    intro i h
    rw [scanRows_cons]
    dsimp only
    rw [ih (i + 1) (fun j e' hget hdir => by
      rw [show i + 1 + j = i + (j + 1) by omega]
      exact h (j + 1) e' (by simpa using hget) hdir)]
    cases hdir : e.is_dir with
    | false => simp [hdir]
    | true =>
      have hclick : (f.rows i).clicked = false := by
        have := h 0 e (by simp) hdir
        rw [Nat.add_zero] at this
        exact this
      simp [hclick]

/-- A single click on a listed directory row makes the row loop select
some directory. -/
theorem scanRows_fst_isSome (plat : Platform) (dir : Path) (f : Frame) :
    ∀ (entries : List FileEntry) (i j : Nat) (e : FileEntry),
      entries[j]? = some e → e.is_dir = true →
      (f.rows (i + j)).clicked = true →
      (scanRows plat dir f entries i).1.isSome = true := by
  intro entries
  induction entries with
  | nil =>
    intro i j e hget _ _
    exact absurd hget (by simp)
  | cons e0 rest ih =>
    intro i j e hget hdir hclick
    rw [scanRows_cons]
    dsimp only
    cases hlater : (scanRows plat dir f rest (i + 1)).1 with
    | some d => rfl
    | none =>
      cases j with
      | zero =>
        have he : e0 = e := by
          simp only [List.getElem?_cons_zero, Option.some.injEq] at hget
          exact hget
        rw [Nat.add_zero] at hclick
        rw [hclick, he, hdir]
        rfl
      | succ j =>
        have := ih (i + 1) j e (by simpa using hget) hdir
          (by rw [show i + 1 + j = i + (j + 1) by omega]; exact hclick)
        rw [hlater] at this
        exact absurd this (by simp)

/-- The step `stepFinal` keeps the current directory and performs no assignment. -/
theorem stepFinal_props (fs : Fs) (now : LocalDateTime) (s s4 : FileManager)
    (e4 : List Effect) (h : stepFinal fs now s = some (s4, e4)) :
    s4.current_dir = s.current_dir ∧ ∀ d, Effect.navAssign d ∉ e4 := by
  unfold stepFinal at h
  by_cases hemp : s.entries.isEmpty
  · rw [if_pos hemp] at h
    cases hrd : read_dir fs now s with
    | none => rw [hrd] at h; exact absurd h (by simp)
    | some s'' =>
      rw [hrd] at h
      injection h with h
      have h1 : s'' = s4 := congrArg Prod.fst h
      have h2 : [Effect.readDirCall s.current_dir] = e4 := congrArg Prod.snd h
      rw [← h1, ← h2]
      exact ⟨read_dir_current_dir fs now s s'' hrd, by simp⟩
  · rw [if_neg hemp] at h
    injection h with h
    have h1 : s = s4 := congrArg Prod.fst h
    have h2 : ([] : List Effect) = e4 := congrArg Prod.snd h
    rw [← h1, ← h2]
    exact ⟨rfl, by simp⟩

/-- C4 (amended): the current directory is assigned exactly by the three
navigation handlers — a breadcrumb click, an "Up" click with a parent, and
a (single) click on a listed subdirectory row; a frame with none of these
(even one with double-clicks and with single clicks on listed
non-directory rows) leaves the current directory untouched; and every
directory read rebuilds the cleared entry list from the filesystem alone,
never from the previous entries. -/
theorem c4_navigation :
    (∀ (plat : Platform) (fs : Fs) (now : LocalDateTime) (f : Frame)
      (s s' : FileManager) (effs : List Effect),
      f.breadcrumb = none → f.upClicked = false →
      (∀ (j : Nat) (e : FileEntry), s.entries[j]? = some e →
        e.is_dir = true → (f.rows j).clicked = false) →
      update plat fs now f s = some (s', effs) →
      s'.current_dir = s.current_dir ∧ ∀ d, Effect.navAssign d ∉ effs) ∧
    (∀ (plat : Platform) (fs : Fs) (now : LocalDateTime) (f : Frame)
      (s s' : FileManager) (effs : List Effect) (i : Nat),
      f.breadcrumb = some i → i ≤ s.current_dir.length →
      update plat fs now f s = some (s', effs) →
      Effect.navAssign (s.current_dir.take i) ∈ effs) ∧
    (∀ (plat : Platform) (fs : Fs) (now : LocalDateTime) (f : Frame)
      (s s' : FileManager) (effs : List Effect) (p : Path),
      f.breadcrumb = none → f.upClicked = true →
      pathParent s.current_dir = some p →
      update plat fs now f s = some (s', effs) →
      Effect.navAssign p ∈ effs) ∧
    (∀ (plat : Platform) (fs : Fs) (now : LocalDateTime) (f : Frame)
      (s s' : FileManager) (effs : List Effect) (j : Nat) (e : FileEntry),
      f.breadcrumb = none → f.upClicked = false →
      s.entries[j]? = some e → e.is_dir = true →
      (f.rows j).clicked = true →
      update plat fs now f s = some (s', effs) →
      ∃ d, Effect.navAssign d ∈ effs) ∧
    (∀ (fs : Fs) (now : LocalDateTime) (s : FileManager),
      read_dir fs now s =
        read_dir fs now { current_dir := s.current_dir, entries := [] }) := by
  refine ⟨?_, ?_, ?_, ?_, ?_⟩
  · intro plat fs now f s s' effs hb hup hnc hupd
    have h1 : stepBreadcrumb fs now f s = some (s, []) := by
      unfold stepBreadcrumb; rw [hb]
    have h2 : stepUp fs now f s = some (s, []) := by
      unfold stepUp; rw [hup]; simp
    have h3 : stepEntries plat fs now f s =
        some (s, (scanRows plat s.current_dir f s.entries 0).2) := by
      unfold stepEntries
      dsimp only
      rw [scanRows_fst_none plat s.current_dir f s.entries 0
        (fun j e hget hdir => by
          rw [Nat.zero_add]
          exact hnc j e hget hdir)]
    unfold update at hupd
    rw [h1] at hupd
    dsimp only at hupd
    rw [h2] at hupd
    dsimp only at hupd
    rw [h3] at hupd
    dsimp only at hupd
    cases h4 : stepFinal fs now s with
    | none => rw [h4] at hupd; exact absurd hupd (by simp)
    | some r =>
      obtain ⟨s4, e4⟩ := r
      rw [h4] at hupd
      dsimp only at hupd
      injection hupd with hupd
      obtain ⟨hcd, hnn⟩ := stepFinal_props fs now s s4 e4 h4
      have hs' : s4 = s' := congrArg Prod.fst hupd
      have heffs : [] ++ [] ++ (scanRows plat s.current_dir f s.entries 0).2
          ++ e4 = effs := congrArg Prod.snd hupd
      constructor
      · rw [← hs', hcd]
      · intro d hd
        rw [← heffs] at hd
        simp only [List.nil_append, List.mem_append] at hd
        rcases hd with hd | hd
        · exact scanRows_snd_no_nav plat s.current_dir f s.entries 0 d hd
        · exact hnn d hd
  · intro plat fs now f s s' effs i hb hle hupd
    unfold update at hupd
    have h1 : stepBreadcrumb fs now f s =
        (match read_dir fs now { s with current_dir := s.current_dir.take i } with
         | none => none
         | some s1 => some (s1, [Effect.navAssign (s.current_dir.take i),
             Effect.readDirCall (s.current_dir.take i)])) := by
      unfold stepBreadcrumb
      rw [hb]
      dsimp only
      rw [if_pos hle]
    rw [h1] at hupd
    cases hrd : read_dir fs now { s with current_dir := s.current_dir.take i } with
    | none => rw [hrd] at hupd; exact absurd hupd (by simp)
    | some s1 =>
      rw [hrd] at hupd
      dsimp only at hupd
      cases h2 : stepUp fs now f s1 with
      | none => rw [h2] at hupd; exact absurd hupd (by simp)
      | some r2 =>
        obtain ⟨s2, e2⟩ := r2
        rw [h2] at hupd
        dsimp only at hupd
        cases h3 : stepEntries plat fs now f s2 with
        | none => rw [h3] at hupd; exact absurd hupd (by simp)
        | some r3 =>
          obtain ⟨s3, e3⟩ := r3
          rw [h3] at hupd
          dsimp only at hupd
          cases h4 : stepFinal fs now s3 with
          | none => rw [h4] at hupd; exact absurd hupd (by simp)
          | some r4 =>
            obtain ⟨s4, e4⟩ := r4
            rw [h4] at hupd
            dsimp only at hupd
            injection hupd with hupd
            have heffs : [Effect.navAssign (s.current_dir.take i),
                Effect.readDirCall (s.current_dir.take i)] ++ e2 ++ e3
                ++ e4 = effs := congrArg Prod.snd hupd
            rw [← heffs]
            simp
  · intro plat fs now f s s' effs p hb hup hpar hupd
    unfold update at hupd
    have h1 : stepBreadcrumb fs now f s = some (s, []) := by
      unfold stepBreadcrumb; rw [hb]
    rw [h1] at hupd
    dsimp only at hupd
    have hcan : can_navigate_up s = true := by
      unfold can_navigate_up; rw [hpar]; rfl
    have h2 : stepUp fs now f s =
        (match read_dir fs now { s with current_dir := p } with
         | none => none
         | some s2 => some (s2, [Effect.navAssign p, Effect.readDirCall p])) := by
      unfold stepUp
      rw [hup, hcan, hpar]
      rfl
    rw [h2] at hupd
    cases hrd : read_dir fs now { s with current_dir := p } with
    | none => rw [hrd] at hupd; exact absurd hupd (by simp)
    | some s2 =>
      rw [hrd] at hupd
      dsimp only at hupd
      cases h3 : stepEntries plat fs now f s2 with
      | none => rw [h3] at hupd; exact absurd hupd (by simp)
      | some r3 =>
        obtain ⟨s3, e3⟩ := r3
        rw [h3] at hupd
        dsimp only at hupd
        cases h4 : stepFinal fs now s3 with
        | none => rw [h4] at hupd; exact absurd hupd (by simp)
        | some r4 =>
          obtain ⟨s4, e4⟩ := r4
          rw [h4] at hupd
          dsimp only at hupd
          injection hupd with hupd
          have heffs : [] ++ [Effect.navAssign p, Effect.readDirCall p] ++
              e3 ++ e4 = effs := congrArg Prod.snd hupd
          rw [← heffs]
          simp
  · intro plat fs now f s s' effs j e hb hup hget hdir hclick hupd
    unfold update at hupd
    have h1 : stepBreadcrumb fs now f s = some (s, []) := by
      unfold stepBreadcrumb; rw [hb]
    rw [h1] at hupd
    dsimp only at hupd
    have h2 : stepUp fs now f s = some (s, []) := by
      unfold stepUp; rw [hup]; simp
    rw [h2] at hupd
    dsimp only at hupd
    have hsome : (scanRows plat s.current_dir f s.entries 0).1.isSome = true :=
      scanRows_fst_isSome plat s.current_dir f s.entries 0 j e hget hdir
        (by rw [Nat.zero_add]; exact hclick)
    obtain ⟨d, hd⟩ := Option.isSome_iff_exists.mp hsome
    have h3 : stepEntries plat fs now f s =
        (match read_dir fs now { s with current_dir := d } with
         | none => none
         | some s3 => some (s3, (scanRows plat s.current_dir f s.entries 0).2
             ++ [Effect.navAssign d, Effect.readDirCall d])) := by
      unfold stepEntries
      dsimp only
      rw [hd]
    rw [h3] at hupd
    cases hrd : read_dir fs now { s with current_dir := d } with
    | none => rw [hrd] at hupd; exact absurd hupd (by simp)
    | some s3 =>
      rw [hrd] at hupd
      dsimp only at hupd
      cases h4 : stepFinal fs now s3 with
      | none => rw [h4] at hupd; exact absurd hupd (by simp)
      | some r4 =>
        obtain ⟨s4, e4⟩ := r4
        rw [h4] at hupd
        dsimp only at hupd
        injection hupd with hupd
        have heffs : [] ++ [] ++ ((scanRows plat s.current_dir f s.entries 0).2
            ++ [Effect.navAssign d, Effect.readDirCall d]) ++ e4 = effs :=
          congrArg Prod.snd hupd
        refine ⟨d, ?_⟩
        rw [← heffs]
        simp
  · intro fs now s
    rfl

/-- The concrete state used by the counterexample to C4: `/home` with one
listed subdirectory `docs`. -/
def c4State : FileManager := ⟨["home"], [⟨"docs", true, 0, "Unknown"⟩]⟩

/-- The concrete frame used by the counterexample to C4: a single click
(no double click) on row 0, no breadcrumb click, no "Up" click. -/
def c4Frame : Frame :=
  ⟨none, false, fun i => if i = 0 then ⟨true, false⟩ else ⟨false, false⟩, true⟩

/-- Counterexample to C4 as stated: in a frame with no breadcrumb click,
no "Up" click and no double-click anywhere, a single click on a listed
subdirectory row still mutates the current directory (main.rs lines
124-128 navigate on `clicked()`, not `double_clicked()`). -/
theorem c4_counterexample :
    c4Frame.breadcrumb = none ∧ c4Frame.upClicked = false ∧
    (∀ i, (c4Frame.rows i).double_clicked = false) ∧
    (update Platform.linux (fun _ => some []) now0 c4Frame c4State).map
        (fun r => r.1.current_dir) = some ["home", "docs"] ∧
    (["home", "docs"] : Path) ≠ c4State.current_dir := by
  refine ⟨rfl, rfl, ?_, by decide, by decide⟩
  intro i
  show (if i = 0 then (⟨true, false⟩ : EntryClicks) else ⟨false, false⟩).double_clicked = false
  split <;> rfl

/-- Witness for C4 (amended): a clicked subdirectory row produces a
navigation assignment in the frame's effects, while the same frame's
single click landing on a listed non-directory row instead mutates
nothing and assigns nothing. -/
theorem c4_witness :
    (∃ d, Effect.navAssign d ∈
      [Effect.navAssign ["home", "docs"],
       Effect.readDirCall ["home", "docs"],
       Effect.readDirCall ["home", "docs"]]) ∧
    ((FileManager.mk ["home"] [⟨"notes.txt", false, 3, "Unknown"⟩]).current_dir
        = (FileManager.mk ["home"]
            [⟨"notes.txt", false, 3, "Unknown"⟩]).current_dir ∧
      ∀ d, Effect.navAssign d ∉ ([] : List Effect)) := by
  constructor
  · exact c4_navigation.2.2.2.1 Platform.linux (fun _ => some []) now0 c4Frame
      c4State ⟨["home", "docs"], []⟩
      [Effect.navAssign ["home", "docs"],
       Effect.readDirCall ["home", "docs"],
       Effect.readDirCall ["home", "docs"]]
      0 ⟨"docs", true, 0, "Unknown"⟩ rfl rfl rfl rfl rfl (by decide)
  · exact c4_navigation.1 Platform.linux (fun _ => some []) now0 c4Frame
      ⟨["home"], [⟨"notes.txt", false, 3, "Unknown"⟩]⟩
      ⟨["home"], [⟨"notes.txt", false, 3, "Unknown"⟩]⟩ [] rfl rfl
      (fun j e hget hdir => by
        cases j with
        | zero =>
          simp only [List.getElem?_cons_zero, Option.some.injEq] at hget
          rw [← hget] at hdir
          exact absurd hdir (by decide)
        | succ j => simp at hget)
      (by decide)

end FileManagerModel
